import Mathlib

/-!
# Verification of the text-processing core of ntfy-me-mcp

This file embeds, in Lean, the two pure text-analysis components of the
repository:

* the link extractor `processActions` of `src/utils/actions.ts` (identical in
  the compiled `build` output), including the module-level regular expression
  `URL_PATTERN`, the `cleanUrl` helper and the label derivation; and
* the markdown detector `detectMarkdown` of `build/helpers/markdown.js`,
  i.e. `containsMarkdown` (stage 1, parser based) and
  `hasCommonMarkdownPatterns` (stage 2, pattern based).

JavaScript strings are modelled as `List Char` (wrapped into `String` at the
interfaces).  The two external dependencies that the code calls into —
the WHATWG `URL` constructor and the `markdown-it` parser in its `'zero'`
preset — have no source in this repository; they are modelled from their
documented, observable semantics, restricted to the inputs reachable from
these two components, and each such model says so in its doc comment.
-/

namespace NtfyCore

/-! ## Character classes of `URL_PATTERN`

The source regex (src/utils/actions.ts line 2):

  `https?:\/\/(?:www\.)?[-a-zA-Z0-9@:%._\+~#=]{1,256}\.[a-zA-Z0-9()]{1,6}\b(?:[-a-zA-Z0-9()@:%_\+.~#?&\/=]*)`

with flags `gi`. -/

/-- `[-a-zA-Z0-9@:%._\+~#=]`, the host-section character class. -/
def isHostChar (c : Char) : Bool :=
  c == '-' || c.isAlphanum || c == '@' || c == ':' || c == '%' || c == '.' ||
  c == '_' || c == '+' || c == '~' || c == '#' || c == '='

/-- `[a-zA-Z0-9()]`, the TLD-section character class. -/
def isTldChar (c : Char) : Bool :=
  c.isAlphanum || c == '(' || c == ')'

/-- `[-a-zA-Z0-9()@:%_\+.~#?&\/=]`, the path/query/fragment continuation class. -/
def isTailChar (c : Char) : Bool :=
  c == '-' || c.isAlphanum || c == '(' || c == ')' || c == '@' || c == ':' ||
  c == '%' || c == '_' || c == '+' || c == '.' || c == '~' || c == '#' ||
  c == '?' || c == '&' || c == '/' || c == '='

/-- JavaScript `\w` (`[A-Za-z0-9_]`), used by the `\b` assertion. -/
def isWordChar (c : Char) : Bool := c.isAlphanum || c == '_'

/-- Character of `cs` at index `i`, `none` past the end. -/
def charAt (cs : List Char) (i : Nat) : Option Char := cs.get? i

/-- Whether the character at index `i` exists and is a word character. -/
def isWordAt (cs : List Char) (i : Nat) : Bool :=
  match charAt cs i with
  | some c => isWordChar c
  | none => false

/-- JavaScript `\b` at string position `p` (between `cs[p-1]` and `cs[p]`). -/
def wordBoundaryAt (cs : List Char) (p : Nat) : Bool :=
  (if p == 0 then false else isWordAt cs (p - 1)) != isWordAt cs p

/-- Length of the maximal run of characters satisfying `p` starting at `i`
(`fuel`-bounded structural recursion; `fuel = cs.length` always suffices). -/
def runLenAux (p : Char → Bool) (cs : List Char) : Nat → Nat → Nat
  | 0, _ => 0
  | fuel + 1, i =>
    match charAt cs i with
    | some c => if p c then runLenAux p cs fuel (i + 1) + 1 else 0
    | none => 0

/-- Length of the maximal run of characters satisfying `p` starting at `i`. -/
def runLen (p : Char → Bool) (cs : List Char) (i : Nat) : Nat :=
  runLenAux p cs cs.length i

/-- Case-insensitive literal match (flag `i`) of `lit` at index `i` of `cs`. -/
def matchesLitCI (cs : List Char) (i : Nat) : List Char → Bool
  | [] => true
  | c :: rest =>
    match charAt cs i with
    | some d => d.toLower == c.toLower && matchesLitCI cs (i + 1) rest
    | none => false

/-! ## The backtracking matcher for `URL_PATTERN`

Every quantified sub-pattern of `URL_PATTERN` is a plain character class, so
the JavaScript backtracking behaviour is exactly: take the maximal run (capped
by the counted bound), then retry with shorter runs, longest first. -/

/-- After `\.` succeeded, try the TLD run `[a-zA-Z0-9()]{1,6}` of length
`k, k-1, …, 1` (greedy, longest first); on the first length whose following
`\b` assertion holds, consume the trailing `(?:[-…]*)` run and return the end
position of the whole match. -/
def tryTldFrom (cs : List Char) (q : Nat) : Nat → Option Nat
  | 0 => none
  | k + 1 =>
    if wordBoundaryAt cs (q + (k + 1)) then
      some (q + (k + 1) + runLen isTailChar cs (q + (k + 1)))
    else
      tryTldFrom cs q k

/-- Continuation after the host run: require the literal `\.` at `p`, then the
TLD part. -/
def afterHost (cs : List Char) (p : Nat) : Option Nat :=
  if charAt cs p == some '.' then
    let q := p + 1
    let m := runLen isTldChar cs q
    if m == 0 then none else tryTldFrom cs q (min m 6)
  else none

/-- Try host-run lengths `k, k-1, …, 1` (greedy, longest first) for
`[-a-zA-Z0-9@:%._\+~#=]{1,256}` starting at `j`. -/
def tryHostFrom (cs : List Char) (j : Nat) : Nat → Option Nat
  | 0 => none
  | k + 1 =>
    match afterHost cs (j + (k + 1)) with
    | some e => some e
    | none => tryHostFrom cs j k

/-- The host part `[-a-zA-Z0-9@:%._\+~#=]{1,256}` and everything after it. -/
def hostPart (cs : List Char) (j : Nat) : Option Nat :=
  let m := runLen isHostChar cs j
  if m == 0 then none else tryHostFrom cs j (min m 256)

/-- The optional greedy group `(?:www\.)?` and everything after it: first try
consuming `www.` (case-insensitively), fall back to not consuming it. -/
def afterScheme (cs : List Char) (j : Nat) : Option Nat :=
  match (if matchesLitCI cs j ['w', 'w', 'w', '.'] then hostPart cs (j + 4) else none) with
  | some e => some e
  | none => hostPart cs j

/-- Attempt to match `URL_PATTERN` at position `i`; on success return the end
position (exclusive).  `https?` is the greedy optional `s?`: the branch with
`s` is tried in full first. -/
def matchAt (cs : List Char) (i : Nat) : Option Nat :=
  if matchesLitCI cs i ['h', 't', 't', 'p'] then
    match (if matchesLitCI cs (i + 4) ['s', ':', '/', '/'] then afterScheme cs (i + 8) else none) with
    | some e => some e
    | none =>
      if matchesLitCI cs (i + 4) [':', '/', '/'] then afterScheme cs (i + 7) else none
  else none

/-- Leftmost match attempt with start position ≥ `i` (fuel-bounded scan). -/
def findFrom (cs : List Char) : Nat → Nat → Option (Nat × Nat)
  | 0, _ => none
  | fuel + 1, i =>
    if i ≥ cs.length then none
    else
      match matchAt cs i with
      | some e => some (i, e)
      | none => findFrom cs fuel (i + 1)

/-- All matches of the global regex, scanning from `lastIndex` = `li`, as
(start, end) index pairs.  After each (necessarily non-empty) match the scan
resumes at its end position, as `String.prototype.matchAll` does. -/
def matchAllAux (cs : List Char) : Nat → Nat → List (Nat × Nat)
  | 0, _ => []
  | fuel + 1, li =>
    match findFrom cs (cs.length + 1) li with
    | some (s, e) => (s, e) :: matchAllAux cs fuel e
    | none => []

/-- All matches of `URL_PATTERN` in `text` when the regex object starts with
the given `lastIndex`.  `processActions` always calls this with `lastIndex = 0`
because it evaluates `new RegExp(URL_PATTERN)`, which yields a fresh regex
object whose `lastIndex` is 0. -/
def urlMatchesFrom (text : String) (lastIndex : Nat) : List (Nat × Nat) :=
  matchAllAux text.data (text.data.length + 1) lastIndex

/-- The matches produced by `Array.from(text.matchAll(new RegExp(URL_PATTERN)))`. -/
def urlMatches (text : String) : List (Nat × Nat) :=
  urlMatchesFrom text 0

/-- The matched substring (`match[0]`) for a (start, end) index pair. -/
def matchedText (text : String) (m : Nat × Nat) : String :=
  String.mk ((text.data.drop m.1).take (m.2 - m.1))

/-! ## `cleanUrl` -/

/-- The JavaScript `String.prototype.trim` whitespace set (WhiteSpace ∪
LineTerminator): space, tab, LF, VT, FF, CR, NBSP, BOM, the Unicode space
separators, and the line/paragraph separators. -/
def isSpaceJS (c : Char) : Bool :=
  c == ' ' || c == '\t' || c == '\n' || c == Char.ofNat 0x0B ||
  c == Char.ofNat 0x0C || c == '\r' || c == Char.ofNat 0xA0 ||
  c == Char.ofNat 0xFEFF || c == Char.ofNat 0x1680 ||
  (0x2000 ≤ c.toNat && c.toNat ≤ 0x200A) || c == Char.ofNat 0x2028 ||
  c == Char.ofNat 0x2029 || c == Char.ofNat 0x202F ||
  c == Char.ofNat 0x205F || c == Char.ofNat 0x3000

/-- JavaScript `trim()` on character lists: drop leading and trailing
whitespace. -/
def trimL (cs : List Char) : List Char :=
  ((cs.dropWhile isSpaceJS).reverse.dropWhile isSpaceJS).reverse

/-- `cleanUrl` of src/utils/actions.ts on character lists: if the string ends
with `)` and `url.slice(0, -1)` does not include `(`, drop that final `)`;
then `trim()`. -/
def cleanUrlL (cs : List Char) : List Char :=
  let cs' :=
    if cs.getLast? == some ')' && !(cs.dropLast.contains '(') then cs.dropLast
    else cs
  trimL cs'

/-- `cleanUrl` of src/utils/actions.ts. -/
def cleanUrl (url : String) : String := String.mk (cleanUrlL url.data)

/-! ## Model of `new URL(...)`, restricted to what is reachable here

The label derivation calls the WHATWG `URL` constructor (a platform API, no
source in this repository) on a cleaned `URL_PATTERN` match, and reads
`hostname`.  Every such input begins with `http://` or `https://` (case
variants included) and contains no whitespace, no `[`, and no backslash.  The
model below follows the WHATWG basic URL parser on that subset:

* tabs and newlines are removed, then the `http`/`https` scheme with `://`
  (plus any extra slashes) is consumed;
* the authority runs to the first `/`, `\`, `?` or `#`; text up to the last
  `@` is userinfo and is discarded;
* a first `:` inside the host-port section starts the port, which must be
  empty or all ASCII digits with value ≤ 65535, else the constructor throws;
* the host must be non-empty and contain no forbidden host/domain code point
  (controls, space, `# % / : < > ? @ [ \ ] ^ |`, DEL) — `%` is treated as a
  failure, i.e. percent-encoded hostnames are outside the modelled subset;
* on success `hostname` is the host lowercased (ASCII).

Unicode IDNA mapping is not modelled; the inputs evaluated in this file are
ASCII. -/

/-- Split at the first occurrence of `sep`: returns the part before it and,
when present, the part after it. -/
def splitFirst (sep : Char) : List Char → List Char × Option (List Char)
  | [] => ([], none)
  | c :: rest =>
    if c == sep then ([], some rest)
    else
      let (pre, post) := splitFirst sep rest
      (c :: pre, post)

/-- The part after the last occurrence of `sep` (the whole list when absent). -/
def afterLast (sep : Char) (cs : List Char) : List Char :=
  (cs.reverse.takeWhile (fun c => c != sep)).reverse

/-- Forbidden host/domain code points of the WHATWG URL Standard (with `%`
included: percent-encoded hosts are outside the modelled subset). -/
def forbiddenHostChar (c : Char) : Bool :=
  c == ' ' || c == '#' || c == '%' || c == '/' || c == ':' || c == '<' ||
  c == '>' || c == '?' || c == '@' || c == '[' || c == '\\' || c == ']' ||
  c == '^' || c == '|' || c.toNat < 0x20 || c.toNat == 0x7F

/-- Digits of an ASCII decimal numeral to a `Nat`. -/
def digitsToNat (cs : List Char) : Nat :=
  cs.foldl (fun acc c => acc * 10 + (c.toNat - '0'.toNat)) 0

/-- Validate the host and return the `hostname` (lowercased). -/
def checkHost (host : List Char) : Option String :=
  if host.isEmpty || host.any forbiddenHostChar then none
  else some (String.mk (host.map Char.toLower))

/-- Parse the authority section: discard userinfo, split off and validate the
port, validate the host. -/
def parseAuthority (auth : List Char) : Option String :=
  let hostport := afterLast '@' auth
  match splitFirst ':' hostport with
  | (host, none) => checkHost host
  | (host, some port) =>
    if port.all Char.isDigit && (port.isEmpty || digitsToNat port ≤ 65535) then
      checkHost host
    else none

/-- `new URL(url).hostname`, or `none` when the constructor throws
(modelled as documented above). -/
def parseHostname (url : String) : Option String :=
  let cs := url.data.filter (fun c => !(c == '\t' || c == '\n' || c == '\r'))
  let rest :=
    if matchesLitCI cs 0 ['h', 't', 't', 'p', 's', ':', '/', '/'] then some (cs.drop 8)
    else if matchesLitCI cs 0 ['h', 't', 't', 'p', ':', '/', '/'] then some (cs.drop 7)
    else none
  match rest with
  | none => none
  | some r =>
    let r := r.dropWhile (fun c => c == '/' || c == '\\')
    let auth := r.takeWhile (fun c => !(c == '/' || c == '\\' || c == '?' || c == '#'))
    parseAuthority auth

/-! ## Label derivation and `processActions` -/

/-- Drop the last `n` characters of a list. -/
def dropRightL (cs : List Char) (n : Nat) : List Char :=
  cs.take (cs.length - n)

/-- `hostname.replace(/^www\./, '')`. -/
def stripWww (h : String) : String :=
  if ['w', 'w', 'w', '.'].isPrefixOf h.data then String.mk (h.data.drop 4) else h

/-- `.replace(/\.(com|org|net|io|dev)$/, '')` (the suffixes are mutually
exclusive, so the anchored alternation is an if-chain). -/
def stripTldSuffix (h : String) : String :=
  if ['.', 'c', 'o', 'm'].isSuffixOf h.data then String.mk (dropRightL h.data 4)
  else if ['.', 'o', 'r', 'g'].isSuffixOf h.data then String.mk (dropRightL h.data 4)
  else if ['.', 'n', 'e', 't'].isSuffixOf h.data then String.mk (dropRightL h.data 4)
  else if ['.', 'i', 'o'].isSuffixOf h.data then String.mk (dropRightL h.data 3)
  else if ['.', 'd', 'e', 'v'].isSuffixOf h.data then String.mk (dropRightL h.data 4)
  else h

/-- The `new URL` call as a fallible computation: `.error` models the thrown
`TypeError`, and the value kept by the source is the `hostname`. -/
def parseURLE (url : String) : Except String String :=
  match parseHostname url with
  | some h => Except.ok h
  | none => Except.error "Invalid URL"

/-- The `try { … new URL(url) … } catch { label = 'link' }` block computing
the label for one URL. -/
def labelOf (url : String) : String :=
  match parseURLE url with
  | Except.ok h => stripTldSuffix (stripWww h)
  | Except.error _ => "link"

/-- The `ViewAction` interface of src/utils/actions.ts. -/
structure ViewAction where
  action : String
  label : String
  url : String
  clear : Bool
  deriving DecidableEq, Repr

/-- The action pushed for one cleaned URL. -/
def actionOf (url : String) : ViewAction :=
  { action := "view", label := "Open " ++ labelOf url, url := url, clear := true }

/-- `processActions` of src/utils/actions.ts, parameterised by the
`lastIndex` the regex object starts with.  The source always starts at 0 (it
builds `new RegExp(URL_PATTERN)` each call); the parameter makes that
explicit. -/
def processActionsWith (lastIndex : Nat) (text : String) : List ViewAction :=
  let urlMatchList := urlMatchesFrom text lastIndex
  if urlMatchList.isEmpty then []
  else
    let actionUrls := (urlMatchList.take 3).map (fun m => cleanUrl (matchedText text m))
    actionUrls.map actionOf

/-- `processActions` of src/utils/actions.ts. -/
def processActions (text : String) : List ViewAction :=
  processActionsWith 0 text

/-- One invocation of `processActions` as seen from the module-level
`URL_PATTERN` regex object, whose mutable `lastIndex` is the only candidate
hidden state: the call evaluates `new RegExp(URL_PATTERN)`, which copies
source and flags into a fresh object with `lastIndex = 0` and leaves the
module-level object untouched, so the call scans from 0 and returns the
module state unchanged.  (The stage-2 detector regexes are non-global, so
their `test` calls ignore `lastIndex` altogether.) -/
def processActionsCall (regexLastIndex : Nat) (text : String) :
    List ViewAction × Nat :=
  (processActionsWith 0 text, regexLastIndex)

/-- One loop iteration of `processActions` with the fallible `new URL` call
explicit: the body first runs the `try` block (propagating the thrown error),
and the source's own `catch` then recovers with the label `link`, so the
error never escapes the iteration. -/
def actionOfE (url : String) : Except String ViewAction :=
  let tryBlock : Except String ViewAction := do
    let h ← parseURLE url
    pure { action := "view", label := "Open " ++ stripTldSuffix (stripWww h),
           url := url, clear := true }
  match tryBlock with
  | Except.ok a => Except.ok a
  | Except.error _ =>
    Except.ok { action := "view", label := "Open " ++ "link", url := url, clear := true }

/-- The `for` loop over the action URLs, with each iteration's fallible step
explicit: an uncaught error in any iteration would abort the whole loop. -/
def actionsOfE : List String → Except String (List ViewAction)
  | [] => Except.ok []
  | url :: rest => do
    let a ← actionOfE url
    let as ← actionsOfE rest
    pure (a :: as)

/-- `processActions` with every fallible step explicit in `Except`. -/
def processActionsE (text : String) : Except String (List ViewAction) := do
  let urlMatchList := urlMatchesFrom text 0
  if urlMatchList.isEmpty then return []
  else
    let actionUrls := (urlMatchList.take 3).map (fun m => cleanUrl (matchedText text m))
    actionsOfE actionUrls

/-! ## Model of `markdown-it`'s `'zero'` preset

`containsMarkdown` calls `new MarkdownIt('zero').parse(text, {})` — an
external library, no source in this repository.  The `'zero'` preset enables
only the `paragraph` block rule and the `text` inline rule (plus the
normalize/`text_join` core rules).  Its observable behaviour on a string is:

* newlines are normalized (`\r\n` and `\r` to `\n`, NUL to U+FFFD);
* the block parser skips blank lines (only spaces/tabs) and turns every
  maximal run of non-blank lines into one paragraph, emitting the three
  tokens `paragraph_open`, `inline`, `paragraph_close`;
* with only the `text` rule enabled, the `inline` token's children are a
  single `text` token (paragraph content is never empty).

So the token stream is three tokens per paragraph and nothing else. -/

/-- A `markdown-it` block token: its `type`, and for `inline` tokens the
`type`s of its children. -/
structure MDToken where
  type : String
  children : List String
  deriving DecidableEq, Repr

/-- `markdown-it` source normalization: `\r\n?` and `\n` to `\n`, NUL to the
replacement character. -/
def mdNormalizeL : List Char → List Char
  | [] => []
  | '\r' :: '\n' :: rest => '\n' :: mdNormalizeL rest
  | '\r' :: rest => '\n' :: mdNormalizeL rest
  | c :: rest => (if c == Char.ofNat 0 then Char.ofNat 0xFFFD else c) :: mdNormalizeL rest

/-- Split on `\n` into lines (an empty input is one empty line). -/
def splitLinesL : List Char → List (List Char)
  | [] => [[]]
  | '\n' :: rest => [] :: splitLinesL rest
  | c :: rest =>
    match splitLinesL rest with
    | [] => [[c]]
    | l :: ls => (c :: l) :: ls

/-- A line the block parser treats as empty: only spaces and tabs. -/
def isBlankLine (l : List Char) : Bool := l.all (fun c => c == ' ' || c == '\t')

/-- Number of paragraphs: maximal runs of non-blank lines.  The flag records
whether the previous line belonged to a paragraph. -/
def countParas : List (List Char) → Bool → Nat
  | [], _ => 0
  | l :: rest, inPara =>
    if isBlankLine l then countParas rest false
    else (if inPara then 0 else 1) + countParas rest true

/-- The three tokens emitted for one paragraph in `'zero'` mode. -/
def mdParagraphTokens : List MDToken :=
  [{ type := "paragraph_open", children := [] },
   { type := "inline", children := ["text"] },
   { type := "paragraph_close", children := [] }]

/-- `new MarkdownIt('zero').parse(text, {})`, as modelled above. -/
def mdZeroTokens (text : String) : List MDToken :=
  let lines := splitLinesL (mdNormalizeL text.data)
  (List.replicate (countParas lines false) mdParagraphTokens).flatten

/-- `markdown-it`'s `parse` as a fallible computation.  On a `String`
argument the library never throws (its only throw is on non-string input),
so the model always returns `Except.ok`. -/
def mdParseE (text : String) : Except String (List MDToken) :=
  Except.ok (mdZeroTokens text)

/-! ## `containsMarkdown` (stage 1) -/

/-- The block-level token types the stage-1 loop looks for. -/
def mdBlockFormattingTypes : List String :=
  ["heading_open", "blockquote_open", "bullet_list_open", "ordered_list_open",
   "fence", "hr", "table_open", "code_block"]

/-- What one iteration of the stage-1 loop detects on a token: an `inline`
token with a non-`text` child, or a block-level formatting token.  The JS
loop only ever sets its flag to `true`, so the loop is this predicate
existentially over the tokens. -/
def tokenIndicatesFormatting (t : MDToken) : Bool :=
  (t.type == "inline" && t.children.any (fun c => c != "text")) ||
  mdBlockFormattingTypes.contains t.type

/-- `containsMarkdown` of build/helpers/markdown.js. -/
def containsMarkdown (text : String) : Bool :=
  let tokens := mdZeroTokens text
  if tokens.length ≤ 2 then tokens.any tokenIndicatesFormatting
  else decide (tokens.length > 2)

/-! ## `hasCommonMarkdownPatterns` (stage 2)

Each of the 15 patterns is a sequence of literals, single-character classes,
unbounded counted repetitions of a single-character class, and the multiline
`^`/`$` assertions.  For such patterns, a match exists from a given start
position iff some path through the element sequence reaches an end position,
so `RegExp.prototype.test` is computed by propagating the set of reachable
positions. -/

/-- One regex element of the stage-2 patterns. -/
inductive RElem where
  | lit : Char → RElem
  | cls : (Char → Bool) → RElem
  | rep : (Char → Bool) → Nat → RElem
  | bol : RElem
  | eol : RElem

/-- JavaScript line terminators (`\n`, `\r`, U+2028, U+2029). -/
def isLineTerm (c : Char) : Bool :=
  c == '\n' || c == '\r' || c == Char.ofNat 0x2028 || c == Char.ofNat 0x2029

/-- JavaScript `.` (without the `s` flag): anything but a line terminator. -/
def isDotChar (c : Char) : Bool := !isLineTerm c

/-- Positions reachable after consuming one element from position `p`.
`rep f lo` is `f{lo,}`: any length from `lo` up to the maximal run. -/
def stepElem (cs : List Char) (e : RElem) (p : Nat) : List Nat :=
  match e with
  | RElem.lit c =>
    match charAt cs p with
    | some d => if d == c then [p + 1] else []
    | none => []
  | RElem.cls f =>
    match charAt cs p with
    | some d => if f d then [p + 1] else []
    | none => []
  | RElem.rep f lo =>
    let m := runLen f cs p
    if m < lo then [] else (List.range (m - lo + 1)).map (fun k => p + lo + k)
  | RElem.bol =>
    if p == 0 then [p]
    else match charAt cs (p - 1) with
      | some d => if isLineTerm d then [p] else []
      | none => []
  | RElem.eol =>
    match charAt cs p with
    | some d => if isLineTerm d then [p] else []
    | none => [p]

/-- Positions reachable after consuming the whole element sequence from any
position in `ps`. -/
def runElems (cs : List Char) (es : List RElem) (ps : List Nat) : List Nat :=
  es.foldl (fun acc e => ((acc.map (stepElem cs e)).flatten).dedup) ps

/-- `pattern.test(s)`: a match exists from some start position. -/
def rtest (es : List RElem) (s : String) : Bool :=
  let cs := s.data
  (List.range (cs.length + 1)).any (fun st => !(runElems cs es [st]).isEmpty)

/-- The 15 patterns of `hasCommonMarkdownPatterns`, in source order. -/
def markdownPatterns : List (List RElem) :=
  [ -- /\*\*.+?\*\*/   bold **x**
    [RElem.lit '*', RElem.lit '*', RElem.rep isDotChar 1, RElem.lit '*', RElem.lit '*'],
    -- /\*.+?\*/       italic *x*
    [RElem.lit '*', RElem.rep isDotChar 1, RElem.lit '*'],
    -- /__.+?__/       bold __x__
    [RElem.lit '_', RElem.lit '_', RElem.rep isDotChar 1, RElem.lit '_', RElem.lit '_'],
    -- /_.+?_/         italic _x_
    [RElem.lit '_', RElem.rep isDotChar 1, RElem.lit '_'],
    -- /~~.+?~~/       strikethrough ~~x~~
    [RElem.lit '~', RElem.lit '~', RElem.rep isDotChar 1, RElem.lit '~', RElem.lit '~'],
    -- /^#+\s+.+$/m    headers
    [RElem.bol, RElem.rep (fun c => c == '#') 1, RElem.rep isSpaceJS 1,
     RElem.rep isDotChar 1, RElem.eol],
    -- /^\s*[-*+]\s+.+$/m   unordered lists
    [RElem.bol, RElem.rep isSpaceJS 0, RElem.cls (fun c => c == '-' || c == '*' || c == '+'),
     RElem.rep isSpaceJS 1, RElem.rep isDotChar 1, RElem.eol],
    -- /^\s*\d+\.\s+.+$/m   ordered lists
    [RElem.bol, RElem.rep isSpaceJS 0, RElem.rep Char.isDigit 1, RElem.lit '.',
     RElem.rep isSpaceJS 1, RElem.rep isDotChar 1, RElem.eol],
    -- /^\s*>.+$/m     blockquotes
    [RElem.bol, RElem.rep isSpaceJS 0, RElem.lit '>', RElem.rep isDotChar 1, RElem.eol],
    -- /`[^`]+`/       inline code
    [RElem.lit (Char.ofNat 0x60), RElem.rep (fun c => c != Char.ofNat 0x60) 1,
     RElem.lit (Char.ofNat 0x60)],
    -- /```[\s\S]*?```/  code blocks
    [RElem.lit (Char.ofNat 0x60), RElem.lit (Char.ofNat 0x60), RElem.lit (Char.ofNat 0x60),
     RElem.rep (fun _ => true) 0,
     RElem.lit (Char.ofNat 0x60), RElem.lit (Char.ofNat 0x60), RElem.lit (Char.ofNat 0x60)],
    -- /\[.+?\]\(.+?\)/   links
    [RElem.lit '[', RElem.rep isDotChar 1, RElem.lit ']',
     RElem.lit '(', RElem.rep isDotChar 1, RElem.lit ')'],
    -- /!\[.+?\]\(.+?\)/  images
    [RElem.lit '!', RElem.lit '[', RElem.rep isDotChar 1, RElem.lit ']',
     RElem.lit '(', RElem.rep isDotChar 1, RElem.lit ')'],
    -- /\|.+\|.+\|/    tables
    [RElem.lit '|', RElem.rep isDotChar 1, RElem.lit '|',
     RElem.rep isDotChar 1, RElem.lit '|'],
    -- /^-{3,}$/m      horizontal rules
    [RElem.bol, RElem.rep (fun c => c == '-') 3, RElem.eol] ]

/-- `hasCommonMarkdownPatterns` of build/helpers/markdown.js. -/
def hasCommonMarkdownPatterns (text : String) : Bool :=
  markdownPatterns.any (fun p => rtest p text)

/-- `detectMarkdown` of build/helpers/markdown.js. -/
def detectMarkdown (text : String) : Bool :=
  let hasMarkdownStructure := containsMarkdown text
  if !hasMarkdownStructure then hasCommonMarkdownPatterns text
  else hasMarkdownStructure

/-- `containsMarkdown` with the library call explicit in `Except`.  There is
no `try`/`catch` in the source, so an error from the parse step would
propagate; it never does, because `mdParseE` is total on strings. -/
def containsMarkdownE (text : String) : Except String Bool := do
  let tokens ← mdParseE text
  if tokens.length ≤ 2 then pure (tokens.any tokenIndicatesFormatting)
  else pure (decide (tokens.length > 2))

/-- `detectMarkdown` with the fallible parse step explicit in `Except`. -/
def detectMarkdownE (text : String) : Except String Bool := do
  let hasMarkdownStructure ← containsMarkdownE text
  if !hasMarkdownStructure then pure (hasCommonMarkdownPatterns text)
  else pure hasMarkdownStructure

/-! ## Properties of the matcher: matches are non-empty and scan left to right -/

theorem tryTldFrom_gt {cs : List Char} {q : Nat} :
    ∀ {k e : Nat}, tryTldFrom cs q k = some e → q < e
  | 0, _, h => by simp [tryTldFrom] at h
  | k + 1, e, h => by
    unfold tryTldFrom at h
    split at h
    · simp only [Option.some.injEq] at h
      omega
    · exact tryTldFrom_gt h

theorem afterHost_gt {cs : List Char} {p e : Nat} (h : afterHost cs p = some e) : p < e := by
  simp only [afterHost] at h
  split at h
  · split at h
    · simp at h
    · have := tryTldFrom_gt h
      omega
  · simp at h

theorem tryHostFrom_gt {cs : List Char} {j : Nat} :
    ∀ {k e : Nat}, tryHostFrom cs j k = some e → j < e
  | 0, _, h => by simp [tryHostFrom] at h
  | k + 1, e, h => by
    unfold tryHostFrom at h
    split at h
    next e' heq =>
      cases h
      have := afterHost_gt heq
      omega
    next => exact tryHostFrom_gt h

theorem hostPart_gt {cs : List Char} {j e : Nat} (h : hostPart cs j = some e) : j < e := by
  simp only [hostPart] at h
  split at h
  · simp at h
  · exact tryHostFrom_gt h

theorem afterScheme_gt {cs : List Char} {j e : Nat} (h : afterScheme cs j = some e) : j < e := by
  unfold afterScheme at h
  split at h
  next e' heq =>
    cases h
    split at heq
    · have := hostPart_gt heq
      omega
    · simp at heq
  next => exact hostPart_gt h

theorem matchAt_gt {cs : List Char} {i e : Nat} (h : matchAt cs i = some e) : i < e := by
  unfold matchAt at h
  split at h
  · split at h
    next e' heq =>
      cases h
      split at heq
      · have := afterScheme_gt heq
        omega
      · simp at heq
    next =>
      split at h
      · have := afterScheme_gt h
        omega
      · simp at h
  · simp at h

theorem findFrom_spec {cs : List Char} :
    ∀ {fuel i s e : Nat}, findFrom cs fuel i = some (s, e) → i ≤ s ∧ matchAt cs s = some e
  | 0, _, _, _, h => by simp [findFrom] at h
  | fuel + 1, i, s, e, h => by
    unfold findFrom at h
    split at h
    · simp at h
    · split at h
      next e' heq =>
        cases h
        exact ⟨Nat.le_refl _, heq⟩
      next =>
        have := findFrom_spec h
        exact ⟨by omega, this.2⟩

theorem matchAllAux_mem {cs : List Char} :
    ∀ {fuel li : Nat}, ∀ m ∈ matchAllAux cs fuel li, li ≤ m.1 ∧ m.1 < m.2
  | 0, li, m, h => by simp [matchAllAux] at h
  | fuel + 1, li, m, h => by
    unfold matchAllAux at h
    split at h
    next s e heq =>
      rcases List.mem_cons.mp h with rfl | hmem
      · have := findFrom_spec heq
        exact ⟨this.1, matchAt_gt this.2⟩
      · have h1 := findFrom_spec heq
        have h2 := matchAllAux_mem m hmem
        have := matchAt_gt h1.2
        exact ⟨by omega, h2.2⟩
    next => simp at h

theorem matchAllAux_pairwise {cs : List Char} :
    ∀ {fuel li : Nat}, (matchAllAux cs fuel li).Pairwise (fun a b => a.1 < b.1)
  | 0, li => by simp [matchAllAux]
  | fuel + 1, li => by
    unfold matchAllAux
    split
    next s e heq =>
      refine List.Pairwise.cons ?_ matchAllAux_pairwise
      intro b hb
      have h1 := findFrom_spec heq
      have h2 := matchAllAux_mem b hb
      have := matchAt_gt h1.2
      omega
    next => simp

/-- The match list is sorted strictly by start offset. -/
theorem urlMatches_sorted (text : String) :
    (urlMatches text).Pairwise (fun a b => a.1 < b.1) :=
  matchAllAux_pairwise

/-! ## Helper lemmas about `trimL` and `dropWhile` -/

theorem dropWhile_getLast? {α : Type} {p : α → Bool} :
    ∀ {l : List α} {c : α}, l.getLast? = some c → p c = false →
      (l.dropWhile p).getLast? = some c
  | [], c, h, _ => by simp at h
  | [x], c, h, hc => by
    simp only [List.getLast?_singleton, Option.some.injEq] at h
    subst h
    simp [List.dropWhile, hc]
  | x :: y :: rest, c, h, hc => by
    have hL : (y :: rest).getLast? = some c := by
      simpa [List.getLast?_cons_cons] using h
    by_cases hp : p x
    · simpa [List.dropWhile, hp] using dropWhile_getLast? hL hc
    · simp only [List.dropWhile, hp]
      simpa [List.getLast?_cons_cons] using hL

theorem dropWhile_eq_self_of_head? {α : Type} {p : α → Bool} {l : List α} {c : α}
    (h : l.head? = some c) (hc : p c = false) : l.dropWhile p = l := by
  cases l with
  | nil => rfl
  | cons x rest =>
    simp only [List.head?_cons, Option.some.injEq] at h
    subst h
    simp [List.dropWhile, hc]

/-- `trim()` keeps a non-whitespace last character. -/
theorem trimL_getLast? {cs : List Char} {c : Char} (h : cs.getLast? = some c)
    (hc : isSpaceJS c = false) : (trimL cs).getLast? = some c := by
  unfold trimL
  have h1 : (cs.dropWhile isSpaceJS).getLast? = some c := dropWhile_getLast? h hc
  have h2 : (cs.dropWhile isSpaceJS).reverse.head? = some c := by
    rw [List.head?_reverse]
    exact h1
  rw [dropWhile_eq_self_of_head? h2 hc, List.reverse_reverse]
  exact h1

/-! ## Totality lemmas for the `Except`-level pipeline -/

theorem actionOfE_ok (url : String) : actionOfE url = Except.ok (actionOf url) := by
  unfold actionOfE actionOf labelOf
  cases h : parseURLE url <;> simp [h]

theorem actionsOfE_ok : ∀ l : List String, actionsOfE l = Except.ok (l.map actionOf)
  | [] => rfl
  | x :: rest => by
    unfold actionsOfE
    rw [actionOfE_ok, actionsOfE_ok rest]
    rfl

theorem processActionsE_ok (text : String) :
    processActionsE text = Except.ok (processActions text) := by
  unfold processActionsE processActions processActionsWith
  by_cases h : (urlMatchesFrom text 0).isEmpty <;>
    simp [h, actionsOfE_ok, pure, Except.pure]

theorem containsMarkdownE_ok (text : String) :
    containsMarkdownE text = Except.ok (containsMarkdown text) := by
  unfold containsMarkdownE containsMarkdown mdParseE
  by_cases h : (mdZeroTokens text).length ≤ 2 <;>
    simp [h, Bind.bind, Except.bind, pure, Except.pure]

theorem detectMarkdownE_ok (text : String) :
    detectMarkdownE text = Except.ok (detectMarkdown text) := by
  unfold detectMarkdownE detectMarkdown
  rw [containsMarkdownE_ok]
  by_cases h : containsMarkdown text <;>
    simp [h, Bind.bind, Except.bind, pure, Except.pure]

/-! ## The claims -/

/-- C1: the specification requires `detect("plain text, no formatting") =
false`, but the code returns `true`: the zero-preset parse of a single plain
paragraph already yields three tokens (`paragraph_open`, `inline`,
`paragraph_close`), so `containsMarkdown`'s `tokens.length <= 2` branch — the
one its own comment says handles "just one paragraph with inline content" —
is skipped and `tokens.length > 2` classifies the unformatted text as
formatted. -/
theorem detectMarkdown_plain_text_true :
    detectMarkdown "plain text, no formatting" = true ∧
    containsMarkdown "plain text, no formatting" = true ∧
    mdZeroTokens "plain text, no formatting" = mdParagraphTokens ∧
    mdParagraphTokens.length = 3 := by
  decide

/-- C2: whenever the text has at least four URL matches, the extractor
returns exactly the actions of the first three matches, in match order, and
the match list itself is strictly ascending in start offset (the extractor
never re-sorts it by any other key). -/
theorem processActions_first_three_in_order (text : String)
    (h : 4 ≤ (urlMatches text).length) :
    processActions text =
      ((urlMatches text).take 3).map
        (fun m => actionOf (cleanUrl (matchedText text m))) ∧
    ((urlMatches text).map Prod.fst).Pairwise (· < ·) := by
  constructor
  · have hne : ¬(urlMatchesFrom text 0).isEmpty = true := by
      intro hi
      rw [List.isEmpty_iff] at hi
      rw [show urlMatches text = urlMatchesFrom text 0 from rfl, hi] at h
      simp at h
    simp [processActions, processActionsWith, hne, urlMatches, List.map_map,
          Function.comp]
    rfl
  · rw [List.pairwise_map]
    exact urlMatches_sorted text

/-- Witness for C2 at the spec's four-URL example: actions for a, b, c in
that order, d dropped. -/
theorem processActions_first_three_in_order_witness :
    4 ≤ (urlMatches "https://a.com https://b.com https://c.com https://d.com").length ∧
    (processActions "https://a.com https://b.com https://c.com https://d.com").map
      (fun a => a.url) = ["https://a.com", "https://b.com", "https://c.com"] :=
  ⟨(processActions_first_three_in_order
      "https://a.com https://b.com https://c.com https://d.com" (by decide)).elim
        (fun _ _ => by decide),
   by decide⟩

/-- C3: the extractor always returns at most 3 actions, and a text with no
URL match yields the empty list. -/
theorem processActions_at_most_three :
    (∀ text : String, (processActions text).length ≤ 3) ∧
    processActions "no urls here" = [] := by
  constructor
  · intro text
    by_cases h : (urlMatchesFrom text 0).isEmpty = true <;>
      simp [processActions, processActionsWith, h, List.length_take]
  · decide

/-- C4: a matched substring that ends with `)` and has no `(` before it is
cleaned by dropping that final `)` and then trimming; in particular
`extract("(https://example.com)")` yields the target `https://example.com`. -/
theorem cleanUrl_strips_trailing_paren (s : String)
    (h1 : s.data.getLast? = some ')')
    (h2 : s.data.dropLast.contains '(' = false) :
    cleanUrl s = String.mk (trimL s.data.dropLast) ∧
    (processActions "(https://example.com)").map (fun a => a.url) =
      ["https://example.com"] := by
  refine ⟨?_, by decide⟩
  have h2m : '(' ∉ s.data.dropLast := by simpa using h2
  unfold cleanUrl cleanUrlL
  simp [h1, h2m]

/-- Witness for C4 at the concrete matched substring
`https://example.com)`. -/
theorem cleanUrl_strips_trailing_paren_witness :
    ("https://example.com)".data.getLast? = some ')' ∧
     "https://example.com)".data.dropLast.contains '(' = false) ∧
    cleanUrl "https://example.com)" = "https://example.com" :=
  ⟨⟨by decide, by decide⟩, by
    have h := cleanUrl_strips_trailing_paren "https://example.com)"
      (by decide) (by decide)
    rw [h.1]
    decide⟩

/-- C5: for a cleaned URL the `URL` constructor parses, the label is
`Open ` followed by the hostname with a leading `www.` and a trailing
`.com`/`.org`/`.net`/`.io`/`.dev` removed; the spec's two-URL example gets
labels `Open example` and `Open foo` in that order. -/
theorem label_is_open_reduced_hostname (url host : String)
    (h : parseHostname url = some host) :
    actionOf url =
      { action := "view", label := "Open " ++ stripTldSuffix (stripWww host),
        url := url, clear := true } ∧
    (processActions "see https://example.com/page and https://foo.io").map
      (fun a => a.label) = ["Open example", "Open foo"] := by
  refine ⟨?_, by decide⟩
  unfold actionOf labelOf parseURLE
  rw [h]

/-- Witness for C5 at `https://example.com/page` (hostname
`example.com`, reduced to `example`). -/
theorem label_is_open_reduced_hostname_witness :
    parseHostname "https://example.com/page" = some "example.com" ∧
    actionOf "https://example.com/page" =
      { action := "view", label := "Open example",
        url := "https://example.com/page", clear := true } :=
  ⟨by decide, by
    have h := label_is_open_reduced_hostname "https://example.com/page"
      "example.com" (by decide)
    rw [h.1]
    decide⟩

/-- C6: a matched URL the `URL` constructor rejects is non-fatal: its action
gets the generic label `Open link`, and the remaining matches are still
processed (here `https://a:b.com` has a non-numeric port, so parsing throws,
yet `https://ok.com` still becomes a labelled action after it). -/
theorem unparseable_url_label_link (url : String)
    (h : parseHostname url = none) :
    actionOf url =
      { action := "view", label := "Open link", url := url, clear := true } ∧
    processActions "https://a:b.com and https://ok.com" =
      [{ action := "view", label := "Open link", url := "https://a:b.com",
         clear := true },
       { action := "view", label := "Open ok", url := "https://ok.com",
         clear := true }] := by
  refine ⟨?_, by decide⟩
  unfold actionOf labelOf parseURLE
  rw [h]
  have hs : ("Open " ++ "link" : String) = "Open link" := by decide
  rw [hs]

/-- Witness for C6 at `https://a:b.com` (port `b.com` is not numeric, so the
`URL` constructor throws). -/
theorem unparseable_url_label_link_witness :
    parseHostname "https://a:b.com" = none ∧
    actionOf "https://a:b.com" =
      { action := "view", label := "Open link", url := "https://a:b.com",
        clear := true } :=
  ⟨by decide, (unparseable_url_label_link "https://a:b.com" (by decide)).1⟩

/-- C7: totality — with every fallible step explicit in `Except`, both
components return `Except.ok` on every input: the only throwing operation of
the extractor (`new URL`) is caught by its own `try`/`catch`, and the
detector's parse step is total on strings, so no stage-1 failure exists to
propagate and the two-stage OR always produces a boolean. -/
theorem no_exception_surfaces (text : String) :
    processActionsE text = Except.ok (processActions text) ∧
    detectMarkdownE text = Except.ok (detectMarkdown text) :=
  ⟨processActionsE_ok text, detectMarkdownE_ok text⟩

/-- C8: the empty string is classified plain: the zero-preset parse of `""`
yields no tokens, the stage-1 loop finds nothing, and none of the 15 stage-2
patterns matches the empty string. -/
theorem detectMarkdown_empty_false :
    detectMarkdown "" = false ∧ containsMarkdown "" = false ∧
    hasCommonMarkdownPatterns "" = false := by
  decide

/-- C9: determinism — a second invocation of `processActions`, receiving
whatever `lastIndex` state the first invocation left behind, returns the
identical action list (the per-call `new RegExp(URL_PATTERN)` resets
`lastIndex` to 0), and `detectMarkdown` is a pure function of its input. -/
theorem detect_and_extract_deterministic (text : String) (st : Nat) :
    (processActionsCall ((processActionsCall st text).2) text).1 =
      (processActionsCall st text).1 ∧
    processActions text = (processActionsCall st text).1 ∧
    detectMarkdown text = detectMarkdown text :=
  ⟨rfl, rfl, rfl⟩

/-- C10: the trailing-parenthesis cleanup is applied once, not iterated: a
matched substring ending in two or more `)` with no `(` anywhere still ends
in `)` after cleaning. -/
theorem cleanUrl_strips_at_most_one (s : String)
    (h1 : s.data.getLast? = some ')')
    (h2 : s.data.dropLast.getLast? = some ')')
    (h3 : s.data.contains '(' = false) :
    (cleanUrl s).data.getLast? = some ')' := by
  have h3m : '(' ∉ s.data := by simpa using h3
  have hdrop : s.data.dropLast.contains '(' = false := by
    have hm : '(' ∉ s.data.dropLast := fun hmem => h3m (List.dropLast_subset _ hmem)
    simpa using hm
  unfold cleanUrl cleanUrlL
  simp only [h1, hdrop, beq_self_eq_true, Bool.not_false, Bool.and_true,
    if_pos]
  exact trimL_getLast? h2 (by decide)

/-- Witness for C10 at `https://a.com))`: cleanup drops one `)` and the
result still ends in `)`. -/
theorem cleanUrl_strips_at_most_one_witness :
    ("https://a.com))".data.getLast? = some ')' ∧
     "https://a.com))".data.dropLast.getLast? = some ')' ∧
     "https://a.com))".data.contains '(' = false) ∧
    (cleanUrl "https://a.com))").data.getLast? = some ')' :=
  ⟨⟨by decide, by decide, by decide⟩,
    cleanUrl_strips_at_most_one "https://a.com))" (by decide) (by decide)
      (by decide)⟩

end NtfyCore
